import Mathlib

/-!
Verification development for the TradeDB portfolio ledger.

The ledger (PortfolioDBManager in db_comm.py, schema in create_db.py,
FX table in FX_CONSTANTS.py) and the valuation service
(PortfolioService in portfolio_service.py) are embedded shallowly:
Python floats become exact rationals, the two SQLite tables become a
list of log rows plus a keyed map of snapshot rows, and the SQLite
transaction (with a possible storage fault during the write sequence)
becomes an explicit outcome type together with a fault parameter.
-/

/-- Floor of a rational, via flooring integer division of the numerator by
the denominator. -/
def ratFloor (q : ℚ) : ℤ := Int.fdiv q.num (q.den : ℤ)

/-- Uppercasing of a string, character by character, as the Python str.upper
method behaves on the ASCII identifiers used here. -/
def strUpper (s : String) : String := ⟨s.data.map Char.toUpper⟩

/-- Round-half-to-even of a rational to an integer, as the Python builtin
round behaves on the scaled value. -/
def roundHalfEven (x : ℚ) : ℤ :=
  let fl : ℤ := ratFloor x
  let frac : ℚ := x - fl
  if frac < 1/2 then fl
  else if 1/2 < frac then fl + 1
  else if fl % 2 = 0 then fl else fl + 1

/-- Python round(x, 4), used for converted prices and for amount. -/
def round4 (x : ℚ) : ℚ := ((roundHalfEven (x * 10000) : ℤ) : ℚ) / 10000

/-- A row of the Trades table (the append-only log): transaction_datetime,
transaction_type, ticker, shares, actual_price, currency, amount. -/
structure TradeRow where
  txDatetime : String
  txType : String
  ticker : String
  shares : ℚ
  actualPrice : ℚ
  currency : Option String
  amount : ℚ
deriving DecidableEq

/-- A row of the Current_Positions table (the snapshot): net_shares,
last_trade_price, total_position_value, last_updated; the ticker is the key. -/
structure PositionRow where
  netShares : ℚ
  lastTradePrice : ℚ
  totalPositionValue : ℚ
  lastUpdated : String
deriving DecidableEq

/-- The persistent state of the store: the Trades log and the
Current_Positions snapshot keyed by ticker. -/
structure DBState where
  trades : List TradeRow
  positions : String → Option PositionRow

/-- Outcome of record_transaction as observed by the caller:
raised models a ValueError propagated out of the function; denied models
the returned string for the liquidity-guard rejection; ok models the
committed transaction (the function returns None); storageFailed models a
sqlite3.Error caught by the handler, which rolls back, prints the error and
returns None without re-raising. -/
inductive TxResult where
  | raised (msg : String)
  | denied
  | ok
  | storageFailed
deriving DecidableEq

def TxResult.isRaised : TxResult → Bool
  | .raised _ => true
  | _ => false

/-- currency_conversion_rates of FX_CONSTANTS.py: USD_TO_SEK = 9.3,
SEK maps to 1.0, EUR_TO_SEK = 10.92. -/
def currencyConversionRates (c : String) : Option ℚ :=
  if c = "USD" then some (93/10)
  else if c = "SEK" then some 1
  else if c = "EUR" then some (273/25)
  else none

def msgTypeRequired : String :=
  "Transaction type must be provided and be one of BUY, SELL, DEPOSIT, WITHDRAW."

def msgCashType : String :=
  "For CASH ticker, transaction type must be DEPOSIT or WITHDRAW."

def msgUnsupported : String := " not supported yet for conversion."

/-- _upsert_position of PortfolioDBManager: read the existing row (net shares
default 0), add the share change, pin the price to 1 for CASH and to the
transaction price otherwise, recompute the total as the product, and write the
row back under the ticker key.  (The source also reads last_trade_price into a
local default, which it never uses afterwards.) -/
def upsertPosition (pos : String → Option PositionRow) (ticker : String)
    (shareChange price : ℚ) (txDatetime : String) : String → Option PositionRow :=
  let currentShares : ℚ :=
    match pos ticker with
    | some r => r.netShares
    | none => 0
  let newShares := currentShares + shareChange
  let newPrice : ℚ := if ticker = "CASH" then 1 else price
  let newTotal := newShares * newPrice
  fun t => if t = ticker then some ⟨newShares, newPrice, newTotal, txDatetime⟩ else pos t

/-- Steps 2 and 3 of the write sequence of record_transaction, driven entirely
by the fields of the logged row: upsert the traded ticker with the signed share
change, then, for a non-CASH ticker with a nonzero cash offset, upsert the CASH
row at price 1. -/
def applyLoggedRow (pos : String → Option PositionRow) (r : TradeRow) :
    String → Option PositionRow :=
  let stockChange : ℚ :=
    if r.txType = "BUY" ∨ r.txType = "DEPOSIT" then r.shares else -r.shares
  let pos1 := upsertPosition pos r.ticker stockChange r.actualPrice r.txDatetime
  if r.ticker ≠ "CASH" then
    let cashChange : ℚ :=
      if r.txType = "BUY" then -r.amount
      else if r.txType = "SELL" then r.amount
      else 0
    if cashChange ≠ 0 then upsertPosition pos1 "CASH" cashChange 1 r.txDatetime
    else pos1
  else pos1

/-- net_shares held under a key of the snapshot, defaulting to 0 when the row
is absent, as the source reads it. -/
def posUnits (pos : String → Option PositionRow) (t : String) : ℚ :=
  match pos t with
  | some r => r.netShares
  | none => 0

def netUnitsOf (s : DBState) (t : String) : ℚ := posUnits s.positions t

def cashUnits (s : DBState) : ℚ := posUnits s.positions ("CASH")

/-- The body of record_transaction from the liquidity guard on.  txType is
already upper-cased, actualPrice already carries the CASH forcing and the
currency conversion.  The fault argument models the underlying store raising
at the given zero-based write of the atomic sequence (0 = log insert,
1 = ticker upsert, 2 = CASH offset upsert); the except handler rolls back and
returns without re-raising.  A transaction_type outside the four recognized
kinds violates the CHECK constraint of the Trades table (create_db.py), so the
log insert itself raises and is likewise rolled back and swallowed. -/
def recordCore (s : DBState) (txType ticker : String) (shares actualPrice : ℚ)
    (txDatetime : String) (currency : Option String) (fault : Option ℕ) :
    TxResult × DBState :=
  let totalAmount := round4 (shares * actualPrice)
  if (txType = "BUY" ∨ txType = "WITHDRAW") ∧ cashUnits s < totalAmount then
    (.denied, s)
  else if ¬(txType = "BUY" ∨ txType = "SELL" ∨ txType = "DEPOSIT" ∨ txType = "WITHDRAW") then
    (.storageFailed, s)
  else
    let row : TradeRow := ⟨txDatetime, txType, ticker, shares, actualPrice, currency, totalAmount⟩
    let cashChange : ℚ :=
      if txType = "BUY" then -totalAmount
      else if txType = "SELL" then totalAmount
      else 0
    let writes : ℕ := if ticker ≠ "CASH" ∧ cashChange ≠ 0 then 3 else 2
    let committed : TxResult × DBState :=
      (.ok, ⟨s.trades ++ [row], applyLoggedRow s.positions row⟩)
    match fault with
    | some k => if k < writes then (.storageFailed, s) else committed
    | none => committed

/-- record_transaction of PortfolioDBManager: the truthiness check on the type
(only an empty type raises; the membership test over the four kinds has no
else branch and rejects nothing), the CASH ticker validation and price
forcing, the currency validation and conversion, then the guarded atomic
write sequence. -/
def recordTransaction (s : DBState) (txType0 ticker : String)
    (shares actualPrice0 : ℚ) (txDatetime : String) (currency0 : Option String)
    (fault : Option ℕ) : TxResult × DBState :=
  if txType0 = "" then
    (.raised msgTypeRequired, s)
  else
    let txType := strUpper txType0
    if ticker = "CASH" ∧ ¬(txType = "DEPOSIT" ∨ txType = "WITHDRAW") then
      (.raised msgCashType, s)
    else
      let actualPrice1 : ℚ := if ticker = "CASH" then 1 else actualPrice0
      match currency0 with
      | none => recordCore s txType ticker shares actualPrice1 txDatetime none fault
      | some c0 =>
        let c := strUpper c0
        match currencyConversionRates c with
        | none => (.raised (c ++ msgUnsupported), s)
        | some rate =>
          if c ≠ "SEK" then
            recordCore s txType ticker shares (round4 (actualPrice1 * rate)) txDatetime
              (some ("SEK")) fault
          else
            recordCore s txType ticker shares actualPrice1 txDatetime (some c) fault

/-- One call to record_transaction, together with the fault injected into its
write sequence (none = the store does not fail during this call). -/
structure TxRequest where
  txType : String
  ticker : String
  shares : ℚ
  actualPrice : ℚ
  txDatetime : String
  currency : Option String
  fault : Option ℕ
deriving DecidableEq

def applyRequest (s : DBState) (r : TxRequest) : DBState :=
  (recordTransaction s r.txType r.ticker r.shares r.actualPrice r.txDatetime
    r.currency r.fault).2

def resultOf (s : DBState) (r : TxRequest) : TxResult :=
  (recordTransaction s r.txType r.ticker r.shares r.actualPrice r.txDatetime
    r.currency r.fault).1

/-- The freshly created store: empty log, empty snapshot. -/
def emptyState : DBState := ⟨[], fun _ => none⟩

def runRequests (reqs : List TxRequest) : DBState :=
  reqs.foldl applyRequest emptyState

/-- Rebuild of the snapshot from scratch: fold the per-row upsert rule over
the log, starting from the empty snapshot. -/
def replayLog (log : List TradeRow) : String → Option PositionRow :=
  log.foldl applyLoggedRow (fun _ => none)

def posFields (r : PositionRow) : ℚ × ℚ × ℚ :=
  (r.netShares, r.lastTradePrice, r.totalPositionValue)

theorem recordCore_cases (s : DBState) (ty tk : String) (sh pr : ℚ) (dt : String)
    (cur : Option String) (fault : Option ℕ) :
    recordCore s ty tk sh pr dt cur fault = (.denied, s) ∨
    recordCore s ty tk sh pr dt cur fault = (.storageFailed, s) ∨
    recordCore s ty tk sh pr dt cur fault =
      (.ok, ⟨s.trades ++ [⟨dt, ty, tk, sh, pr, cur, round4 (sh * pr)⟩],
             applyLoggedRow s.positions ⟨dt, ty, tk, sh, pr, cur, round4 (sh * pr)⟩⟩) := by
  cases fault with
  | none =>
    simp only [recordCore]
    split_ifs <;> simp
  | some k =>
    simp only [recordCore]
    split_ifs <;> simp

theorem recordTransaction_cases (s : DBState) (ty tk : String) (sh pr : ℚ) (dt : String)
    (cur : Option String) (fault : Option ℕ) :
    ((recordTransaction s ty tk sh pr dt cur fault).1 ≠ TxResult.ok ∧
      (recordTransaction s ty tk sh pr dt cur fault).2 = s) ∨
    ∃ row : TradeRow, row.txType = strUpper ty ∧ row.ticker = tk ∧ row.shares = sh ∧
      row.txDatetime = dt ∧
      recordTransaction s ty tk sh pr dt cur fault =
        (.ok, ⟨s.trades ++ [row], applyLoggedRow s.positions row⟩) := by
  have hc : ∀ (p : ℚ) (c2 : Option String),
      ((recordCore s (strUpper ty) tk sh p dt c2 fault).1 ≠ TxResult.ok ∧
        (recordCore s (strUpper ty) tk sh p dt c2 fault).2 = s) ∨
      ∃ row : TradeRow, row.txType = strUpper ty ∧ row.ticker = tk ∧ row.shares = sh ∧
        row.txDatetime = dt ∧
        recordCore s (strUpper ty) tk sh p dt c2 fault =
          (.ok, ⟨s.trades ++ [row], applyLoggedRow s.positions row⟩) := by
    intro p c2
    rcases recordCore_cases s (strUpper ty) tk sh p dt c2 fault with h | h | h
    · exact Or.inl ⟨by rw [h]; simp, by rw [h]⟩
    · exact Or.inl ⟨by rw [h]; simp, by rw [h]⟩
    · exact Or.inr ⟨_, rfl, rfl, rfl, rfl, h⟩
  by_cases h1 : ty = ""
  · simp only [recordTransaction, if_pos h1]
    exact Or.inl (by refine ⟨?_, ?_⟩ <;> simp)
  · by_cases h2 : tk = "CASH" ∧ ¬(strUpper ty = "DEPOSIT" ∨ strUpper ty = "WITHDRAW")
    · simp only [recordTransaction, if_neg h1, if_pos h2]
      exact Or.inl (by refine ⟨?_, ?_⟩ <;> simp)
    · cases cur with
      | none =>
        simp only [recordTransaction, if_neg h1, if_neg h2]
        exact hc _ _
      | some c0 =>
        simp only [recordTransaction, if_neg h1, if_neg h2]
        cases hcc : currencyConversionRates (strUpper c0) with
        | none => simp only [hcc]; exact Or.inl (by refine ⟨?_, ?_⟩ <;> simp)
        | some rate =>
          simp only [hcc]
          by_cases h3 : strUpper c0 ≠ "SEK"
          · rw [if_pos h3]; exact hc _ _
          · rw [if_neg h3]; exact hc _ _

theorem replayLog_append (log : List TradeRow) (row : TradeRow) :
    replayLog (log ++ [row]) = applyLoggedRow (replayLog log) row := by
  unfold replayLog
  rw [List.foldl_append]
  rfl

theorem applyRequest_preserves_replay (s : DBState) (r : TxRequest)
    (h : s.positions = replayLog s.trades) :
    (applyRequest s r).positions = replayLog (applyRequest s r).trades := by
  unfold applyRequest
  rcases recordTransaction_cases s r.txType r.ticker r.shares r.actualPrice r.txDatetime
      r.currency r.fault with ⟨-, hc⟩ | ⟨row, -, -, -, -, hc⟩
  · rw [hc]; exact h
  · rw [hc]
    show applyLoggedRow s.positions row = replayLog (s.trades ++ [row])
    rw [replayLog_append, h]

theorem foldl_preserves_replay (reqs : List TxRequest) (s : DBState)
    (h : s.positions = replayLog s.trades) :
    (reqs.foldl applyRequest s).positions = replayLog (reqs.foldl applyRequest s).trades := by
  induction reqs generalizing s with
  | nil => exact h
  | cons r rs ih =>
    simp only [List.foldl_cons]
    exact ih (applyRequest s r) (applyRequest_preserves_replay s r h)

theorem runRequests_positions_eq_replay (reqs : List TxRequest) :
    (runRequests reqs).positions = replayLog (runRequests reqs).trades :=
  foldl_preserves_replay reqs emptyState rfl

/-- C1: starting from the empty store, after any sequence of record calls the
net units, last price and total value that the incrementally maintained
snapshot holds for every symbol coincide with those produced by replaying the
full trade log in order through the snapshot-upsert rule from the empty
snapshot. -/
theorem c1_snapshot_replay (reqs : List TxRequest) (sym : String) :
    ((runRequests reqs).positions sym).map posFields
      = ((replayLog (runRequests reqs).trades) sym).map posFields := by
  rw [runRequests_positions_eq_replay]

/-- Row-wise invariant of the snapshot: total_position_value is the product of
net_shares and last_trade_price, and the CASH row is pinned to price 1. -/
def snapshotInvariant (pos : String → Option PositionRow) : Prop :=
  ∀ sym row, pos sym = some row →
    row.totalPositionValue = row.netShares * row.lastTradePrice ∧
      (sym = "CASH" → row.lastTradePrice = 1)

theorem upsertPosition_invariant (pos : String → Option PositionRow) (tk : String)
    (ch pr : ℚ) (dt : String) (h : snapshotInvariant pos) :
    snapshotInvariant (upsertPosition pos tk ch pr dt) := by
  intro sym row hrow
  simp only [upsertPosition] at hrow
  by_cases hs : sym = tk
  · rw [if_pos hs] at hrow
    injection hrow with hrow
    subst hrow
    refine ⟨rfl, ?_⟩
    intro hcash
    rw [hs] at hcash
    simp only [hcash, if_pos]
  · rw [if_neg hs] at hrow
    exact h sym row hrow

theorem applyLoggedRow_invariant (pos : String → Option PositionRow) (r : TradeRow)
    (h : snapshotInvariant pos) : snapshotInvariant (applyLoggedRow pos r) := by
  simp only [applyLoggedRow]
  split_ifs <;>
    first
      | exact upsertPosition_invariant _ _ _ _ _ (upsertPosition_invariant _ _ _ _ _ h)
      | exact upsertPosition_invariant _ _ _ _ _ h

theorem runRequests_invariant (reqs : List TxRequest) :
    snapshotInvariant (runRequests reqs).positions := by
  have main : ∀ (l : List TxRequest) (s : DBState), snapshotInvariant s.positions →
      snapshotInvariant (l.foldl applyRequest s).positions := by
    intro l
    induction l with
    | nil => intro s hs; exact hs
    | cons r rs ih =>
      intro s hs
      simp only [List.foldl_cons]
      refine ih (applyRequest s r) ?_
      unfold applyRequest
      rcases recordTransaction_cases s r.txType r.ticker r.shares r.actualPrice r.txDatetime
          r.currency r.fault with ⟨-, hc⟩ | ⟨row, -, -, -, -, hc⟩
      · rw [hc]; exact hs
      · rw [hc]; exact applyLoggedRow_invariant _ _ hs
  refine main reqs emptyState ?_
  intro sym row hrow
  exact absurd hrow (by simp [emptyState])

/-- C6: in every store state reachable by record calls from the empty store,
every snapshot row satisfies total_position_value = net_shares *
last_trade_price, and the CASH row always carries last_trade_price 1. -/
theorem c6_snapshot_product_invariant (reqs : List TxRequest) (sym : String)
    (row : PositionRow) (h : (runRequests reqs).positions sym = some row) :
    row.totalPositionValue = row.netShares * row.lastTradePrice ∧
      (sym = "CASH" → row.lastTradePrice = 1) :=
  runRequests_invariant reqs sym row h

def demoDepositReqs : List TxRequest :=
  [⟨("DEPOSIT"), ("CASH"), 100, 1, ("t1"), some ("SEK"), none⟩]

/-- Witness for C6 at a concrete reachable state: one cash deposit of 100. -/
theorem c6_snapshot_product_invariant_witness :
    (runRequests demoDepositReqs).positions ("CASH") = some ⟨100, 1, 100, ("t1")⟩ ∧
      ((100:ℚ) = 100 * 1 ∧ (1:ℚ) = 1) := by
  have h : (runRequests demoDepositReqs).positions ("CASH") = some ⟨100, 1, 100, ("t1")⟩ := by
    with_unfolding_all decide
  refine ⟨h, ?_, ?_⟩
  · exact (c6_snapshot_product_invariant demoDepositReqs ("CASH") ⟨100, 1, 100, ("t1")⟩ h).1
  · exact (c6_snapshot_product_invariant demoDepositReqs ("CASH") ⟨100, 1, 100, ("t1")⟩ h).2 rfl

theorem posUnits_upsert_self (pos : String → Option PositionRow) (tk : String)
    (ch pr : ℚ) (dt : String) :
    posUnits (upsertPosition pos tk ch pr dt) tk = posUnits pos tk + ch := by
  simp only [upsertPosition, posUnits, if_pos rfl]

theorem posUnits_upsert_other (pos : String → Option PositionRow) (tk : String)
    (ch pr : ℚ) (dt : String) (t : String) (h : t ≠ tk) :
    posUnits (upsertPosition pos tk ch pr dt) t = posUnits pos t := by
  simp only [upsertPosition, posUnits, if_neg h]

theorem posUnits_applyLoggedRow_cash (pos : String → Option PositionRow) (row : TradeRow)
    (h : row.ticker ≠ "CASH") :
    posUnits (applyLoggedRow pos row) ("CASH") =
      posUnits pos ("CASH") +
        (if row.txType = "BUY" then -row.amount
         else if row.txType = "SELL" then row.amount else 0) := by
  simp only [applyLoggedRow, if_pos h]
  by_cases hc : (if row.txType = "BUY" then -row.amount
      else if row.txType = "SELL" then row.amount else 0) ≠ 0
  · rw [if_pos hc, posUnits_upsert_self, posUnits_upsert_other _ _ _ _ _ _ (Ne.symm h)]
  · rw [if_neg hc]
    push_neg at hc
    rw [posUnits_upsert_other _ _ _ _ _ _ (Ne.symm h), hc, add_zero]

theorem posUnits_applyLoggedRow_ticker (pos : String → Option PositionRow) (row : TradeRow)
    (h : row.ticker ≠ "CASH") :
    posUnits (applyLoggedRow pos row) row.ticker =
      posUnits pos row.ticker +
        (if row.txType = "BUY" ∨ row.txType = "DEPOSIT" then row.shares else -row.shares) := by
  simp only [applyLoggedRow, if_pos h]
  by_cases hc : (if row.txType = "BUY" then -row.amount
      else if row.txType = "SELL" then row.amount else 0) ≠ 0
  · rw [if_pos hc, posUnits_upsert_other _ _ _ _ _ _ h, posUnits_upsert_self]
  · rw [if_neg hc, posUnits_upsert_self]

theorem posUnits_applyLoggedRow_cashrow (pos : String → Option PositionRow) (row : TradeRow)
    (h : row.ticker = "CASH") :
    posUnits (applyLoggedRow pos row) ("CASH") =
      posUnits pos ("CASH") +
        (if row.txType = "BUY" ∨ row.txType = "DEPOSIT" then row.shares else -row.shares) := by
  simp only [applyLoggedRow]
  rw [if_neg (by simp [h])]
  rw [h, posUnits_upsert_self]

theorem recordCore_denied (s : DBState) (ty tk : String) (sh pr : ℚ) (dt : String)
    (cur : Option String) (fault : Option ℕ)
    (h : (ty = "BUY" ∨ ty = "WITHDRAW") ∧ cashUnits s < round4 (sh * pr)) :
    recordCore s ty tk sh pr dt cur fault = (.denied, s) := by
  simp only [recordCore]
  rw [if_pos h]

theorem recordCore_ok_of_guard (s : DBState) (ty tk : String) (sh pr : ℚ) (dt : String)
    (cur : Option String)
    (hvalidty : ty = "BUY" ∨ ty = "SELL" ∨ ty = "DEPOSIT" ∨ ty = "WITHDRAW")
    (hguard : ¬((ty = "BUY" ∨ ty = "WITHDRAW") ∧ cashUnits s < round4 (sh * pr))) :
    recordCore s ty tk sh pr dt cur none =
      (.ok, ⟨s.trades ++ [⟨dt, ty, tk, sh, pr, cur, round4 (sh * pr)⟩],
             applyLoggedRow s.positions ⟨dt, ty, tk, sh, pr, cur, round4 (sh * pr)⟩⟩) := by
  simp only [recordCore]
  rw [if_neg hguard, if_neg (not_not_intro hvalidty)]

theorem recordTransaction_sek (s : DBState) (ty tk : String) (sh pr : ℚ) (dt : String)
    (fault : Option ℕ) (h1 : ty ≠ "")
    (h2 : ¬(tk = "CASH" ∧ ¬(strUpper ty = "DEPOSIT" ∨ strUpper ty = "WITHDRAW"))) :
    recordTransaction s ty tk sh pr dt (some ("SEK")) fault =
      recordCore s (strUpper ty) tk sh (if tk = "CASH" then 1 else pr) dt
        (some ("SEK")) fault := by
  simp only [recordTransaction, if_neg h1, if_neg h2]
  have hu : strUpper ("SEK") = ("SEK") := by with_unfolding_all rfl
  rw [hu]
  have hcc : currencyConversionRates ("SEK") = some 1 := by
    simp [currencyConversionRates]
  simp only [hcc]
  rw [if_neg (by simp)]

/-- A store whose snapshot holds exactly the CASH row with 100 units. -/
def sCash100 : DBState :=
  ⟨[], fun t => if t = ("CASH") then some ⟨100, 1, 100, ("t0")⟩ else none⟩

/-- C2 counterexample: with CASH at exactly 100 units, a WITHDRAW of 100 units
of the non-CASH ticker AAPL has amount equal to the CASH balance, passes the
liquidity guard and succeeds, yet leaves CASH at 100 instead of driving it
to 0: the claim fails for WITHDRAW calls on a non-CASH symbol. -/
theorem c2_counterexample :
    cashUnits sCash100 = round4 (100 * 1) ∧
    (recordTransaction sCash100 ("WITHDRAW") ("AAPL") 100 1 ("t1") (some ("SEK")) none).1
      = TxResult.ok ∧
    cashUnits (recordTransaction sCash100 ("WITHDRAW") ("AAPL") 100 1 ("t1")
      (some ("SEK")) none).2 = 100 := by
  refine ⟨?_, ?_, ?_⟩ <;> with_unfolding_all decide

/-- C2 amended: for a record call of type BUY or WITHDRAW that passes
validation (a BUY cannot target the CASH ticker), with the default SEK
currency and no storage fault: when the CASH balance is strictly below the
rounded amount the call is denied as data, with log and snapshot unchanged;
when the CASH balance equals the amount the call succeeds, and it drives the
CASH balance to 0 for a BUY, while a WITHDRAW of the CASH ticker lowers CASH
by the requested quantity and a WITHDRAW of a non-CASH ticker leaves CASH
unchanged. -/
theorem c2_amended (s : DBState) (ty tk : String) (sh pr : ℚ) (dt : String)
    (hty : ty = "BUY" ∨ ty = "WITHDRAW")
    (hvalid : tk = "CASH" → ty = "WITHDRAW") :
    (cashUnits s < round4 (sh * (if tk = "CASH" then 1 else pr)) →
      recordTransaction s ty tk sh pr dt (some ("SEK")) none = (TxResult.denied, s)) ∧
    (cashUnits s = round4 (sh * (if tk = "CASH" then 1 else pr)) →
      (recordTransaction s ty tk sh pr dt (some ("SEK")) none).1 = TxResult.ok ∧
      (ty = "BUY" →
        cashUnits (recordTransaction s ty tk sh pr dt (some ("SEK")) none).2 = 0) ∧
      (ty = "WITHDRAW" → tk = "CASH" →
        cashUnits (recordTransaction s ty tk sh pr dt (some ("SEK")) none).2
          = cashUnits s - sh) ∧
      (ty = "WITHDRAW" → tk ≠ "CASH" →
        cashUnits (recordTransaction s ty tk sh pr dt (some ("SEK")) none).2
          = cashUnits s)) := by
  have hup : strUpper ty = ty := by
    rcases hty with h | h <;> rw [h] <;> with_unfolding_all rfl
  have hne : ty ≠ "" := by
    rcases hty with h | h <;> rw [h] <;> with_unfolding_all decide
  have h2 : ¬(tk = "CASH" ∧ ¬(strUpper ty = "DEPOSIT" ∨ strUpper ty = "WITHDRAW")) := by
    rintro ⟨hc, hnot⟩
    have := hvalid hc
    rw [hup, this] at hnot
    exact hnot (Or.inr rfl)
  rw [recordTransaction_sek s ty tk sh pr dt none hne h2, hup]
  constructor
  · intro hlt
    refine recordCore_denied s ty tk sh _ dt _ none ⟨hty, hlt⟩
  · intro heq
    have hguard : ¬((ty = "BUY" ∨ ty = "WITHDRAW") ∧
        cashUnits s < round4 (sh * (if tk = "CASH" then 1 else pr))) := by
      rintro ⟨-, hlt⟩
      rw [heq] at hlt
      exact lt_irrefl _ hlt
    have hvt : ty = "BUY" ∨ ty = "SELL" ∨ ty = "DEPOSIT" ∨ ty = "WITHDRAW" := by
      rcases hty with h | h
      · exact Or.inl h
      · exact Or.inr (Or.inr (Or.inr h))
    rw [recordCore_ok_of_guard s ty tk sh _ dt _ hvt hguard]
    refine ⟨rfl, ?_, ?_, ?_⟩
    · intro hbuy
      have htk : tk ≠ "CASH" := by
        intro hc
        rw [hvalid hc] at hbuy
        exact absurd hbuy (by with_unfolding_all decide)
      show posUnits (applyLoggedRow s.positions _) ("CASH") = 0
      rw [posUnits_applyLoggedRow_cash s.positions _ htk]
      simp only [hbuy, if_pos, if_neg htk]
      rw [if_neg htk] at heq
      show cashUnits s + -round4 (sh * pr) = 0
      rw [heq]
      ring
    · intro hw hc
      show posUnits (applyLoggedRow s.positions _) ("CASH") = cashUnits s - sh
      rw [posUnits_applyLoggedRow_cashrow s.positions _ hc]
      have : ¬((ty : String) = "BUY" ∨ (ty : String) = "DEPOSIT") := by
        rw [hw]
        with_unfolding_all decide
      rw [if_neg this]
      show cashUnits s + -sh = cashUnits s - sh
      ring
    · intro hw htk
      show posUnits (applyLoggedRow s.positions _) ("CASH") = cashUnits s
      rw [posUnits_applyLoggedRow_cash s.positions _ htk]
      have hb : ¬((ty : String) = "BUY") := by rw [hw]; with_unfolding_all decide
      have hs2 : ¬((ty : String) = "SELL") := by rw [hw]; with_unfolding_all decide
      rw [if_neg hb, if_neg hs2]
      show cashUnits s + 0 = cashUnits s
      ring

/-- Witness for C2 amended: with CASH at 100, a BUY of 10 units of AAPL at
price 15 (amount 150) is denied and leaves the state unchanged. -/
theorem c2_amended_witness :
    cashUnits sCash100 < round4 (10 * (if ("AAPL" : String) = "CASH" then 1 else 15)) ∧
    recordTransaction sCash100 ("BUY") ("AAPL") 10 15 ("t1") (some ("SEK")) none
      = (TxResult.denied, sCash100) :=
  ⟨by with_unfolding_all decide,
   (c2_amended sCash100 ("BUY") ("AAPL") 10 15 ("t1") (Or.inl rfl)
      (by with_unfolding_all decide)).1 (by with_unfolding_all decide)⟩

/-- C3 counterexample: a storage fault at the log append of a cash deposit is
rolled back (the state is unchanged), but the failure is not raised to the
caller: the sqlite error is caught, printed, and the call returns normally,
contradicting the claim that the failure is surfaced by raising. -/
theorem c3_counterexample :
    (recordTransaction sCash100 ("DEPOSIT") ("CASH") 5 1 ("t1") (some ("SEK")) (some 0)).1
      = TxResult.storageFailed ∧
    TxResult.isRaised
      (recordTransaction sCash100 ("DEPOSIT") ("CASH") 5 1 ("t1") (some ("SEK")) (some 0)).1
      = false ∧
    (recordTransaction sCash100 ("DEPOSIT") ("CASH") 5 1 ("t1") (some ("SEK")) (some 0)).2
      = sCash100 := by
  refine ⟨?_, ?_, ?_⟩
  · with_unfolding_all decide
  · with_unfolding_all decide
  · with_unfolding_all rfl

/-- C3 amended: whenever the store raises during the atomic write sequence of
a record call (the call ends in the caught storage-failure outcome), all
partial writes are rolled back, so the log and the snapshot are exactly as
before the call, but the failure is swallowed by the handler rather than
raised: the call returns normally. -/
theorem c3_amended (s : DBState) (ty tk : String) (sh pr : ℚ) (dt : String)
    (cur : Option String) (fault : Option ℕ)
    (h : (recordTransaction s ty tk sh pr dt cur fault).1 = TxResult.storageFailed) :
    (recordTransaction s ty tk sh pr dt cur fault).2 = s ∧
    TxResult.isRaised (recordTransaction s ty tk sh pr dt cur fault).1 = false := by
  refine ⟨?_, by rw [h]; rfl⟩
  rcases recordTransaction_cases s ty tk sh pr dt cur fault with ⟨-, hc⟩ | ⟨row, -, -, -, -, hc⟩
  · exact hc
  · rw [hc] at h
    exact absurd h (by simp)

/-- Witness for C3 amended: a SELL of AAPL whose CASH offset upsert (write 1)
faults ends in the storage-failure outcome; the theorem yields the unchanged
state and the absence of a raised exception. -/
theorem c3_amended_witness :
    ((recordTransaction sCash100 ("SELL") ("AAPL") 1 2 ("t2") (some ("SEK")) (some 1)).1
      = TxResult.storageFailed) ∧
    ((recordTransaction sCash100 ("SELL") ("AAPL") 1 2 ("t2") (some ("SEK")) (some 1)).2
        = sCash100 ∧
      TxResult.isRaised
        (recordTransaction sCash100 ("SELL") ("AAPL") 1 2 ("t2") (some ("SEK")) (some 1)).1
        = false) :=
  ⟨by with_unfolding_all decide,
   c3_amended sCash100 ("SELL") ("AAPL") 1 2 ("t2") (some ("SEK")) (some 1)
     (by with_unfolding_all decide)⟩

/-- C4: the unrecognized type HOLD is not rejected by the validation block
(the membership test over the four kinds has no else branch), so the call
reaches the write sequence where the CHECK constraint of the Trades table
aborts the log insert; the sqlite error is caught and swallowed, the state is
rolled back, and no exception reaches the caller: there is no InvalidArgument
rejection before the write. -/
theorem c4_invalid_type_not_rejected :
    recordTransaction sCash100 ("HOLD") ("AAPL") 1 1 ("t1") (some ("SEK")) none
      = (TxResult.storageFailed, sCash100) ∧
    TxResult.isRaised
      (recordTransaction sCash100 ("HOLD") ("AAPL") 1 1 ("t1") (some ("SEK")) none).1
      = false := by
  refine ⟨?_, ?_⟩
  · with_unfolding_all rfl
  · with_unfolding_all decide

/-- Every request of the list is executed and ends in the committed outcome,
each from the state produced by its predecessors. -/
def allOk : DBState → List TxRequest → Bool
  | _, [] => true
  | s, r :: rs => (decide (resultOf s r = TxResult.ok)) && allOk (applyRequest s r) rs

/-- Sum of the logged amount over the rows of the given transaction type. -/
def sumAmountsOfType (ty : String) : List TradeRow → ℚ
  | [] => 0
  | r :: rs => (if r.txType = ty then r.amount else 0) + sumAmountsOfType ty rs

theorem foldl_trades_ext (rs : List TxRequest) (s : DBState) :
    ∃ ext : List TradeRow, (rs.foldl applyRequest s).trades = s.trades ++ ext := by
  induction rs generalizing s with
  | nil => exact ⟨[], by simp⟩
  | cons r rs ih =>
    simp only [List.foldl_cons]
    rcases recordTransaction_cases s r.txType r.ticker r.shares r.actualPrice r.txDatetime
        r.currency r.fault with ⟨-, hc⟩ | ⟨row, -, -, -, -, hc⟩
    · have : applyRequest s r = s := hc
      rw [this]
      exact ih s
    · have h1 : applyRequest s r = ⟨s.trades ++ [row], applyLoggedRow s.positions row⟩ := by
        unfold applyRequest
        rw [hc]
      obtain ⟨ext, hext⟩ := ih (applyRequest s r)
      refine ⟨[row] ++ ext, ?_⟩
      rw [hext, h1]
      simp

/-- C5: over any run of record calls that are all committed, each a BUY or a
SELL of a non-CASH symbol, the final CASH net units equal the initial CASH
net units minus the sum of the logged BUY amounts plus the sum of the logged
SELL amounts, each amount being the 4-decimal rounded quantity times price. -/
theorem c5_cash_conservation (reqs : List TxRequest) (s0 : DBState)
    (hok : allOk s0 reqs = true)
    (hbs : ∀ r ∈ reqs,
      (strUpper r.txType = "BUY" ∨ strUpper r.txType = "SELL") ∧ r.ticker ≠ "CASH") :
    cashUnits (reqs.foldl applyRequest s0) =
      cashUnits s0
        - sumAmountsOfType ("BUY")
            (List.drop s0.trades.length (reqs.foldl applyRequest s0).trades)
        + sumAmountsOfType ("SELL")
            (List.drop s0.trades.length (reqs.foldl applyRequest s0).trades) := by
  induction reqs generalizing s0 with
  | nil =>
    simp [List.drop_length, sumAmountsOfType]
  | cons r rs ih =>
    simp only [allOk, Bool.and_eq_true, decide_eq_true_eq] at hok
    obtain ⟨hr, hrest⟩ := hok
    obtain ⟨hty, htk⟩ := hbs r (List.mem_cons_self r rs)
    rcases recordTransaction_cases s0 r.txType r.ticker r.shares r.actualPrice r.txDatetime
        r.currency r.fault with ⟨hne, -⟩ | ⟨row, htyrow, htkrow, -, -, hc⟩
    · exact absurd hr hne
    · have h1 : applyRequest s0 r = ⟨s0.trades ++ [row], applyLoggedRow s0.positions row⟩ := by
        unfold applyRequest
        rw [hc]
      have htkrow2 : row.ticker ≠ "CASH" := by rw [htkrow]; exact htk
      have hcash1 : cashUnits (applyRequest s0 r) =
          cashUnits s0 +
            (if row.txType = "BUY" then -row.amount
             else if row.txType = "SELL" then row.amount else 0) := by
        rw [h1]
        exact posUnits_applyLoggedRow_cash s0.positions row htkrow2
      have ihs := ih (applyRequest s0 r) hrest
        (fun q hq => hbs q (List.mem_cons_of_mem r hq))
      obtain ⟨ext, hext⟩ := foldl_trades_ext rs (applyRequest s0 r)
      have htr1 : (applyRequest s0 r).trades = s0.trades ++ [row] := by rw [h1]
      have hdrop0 :
          List.drop s0.trades.length ((rs.foldl applyRequest (applyRequest s0 r)).trades)
            = row :: ext := by
        rw [hext, htr1, List.append_assoc, List.drop_left]
        rfl
      have hdrop1 :
          List.drop (applyRequest s0 r).trades.length
              ((rs.foldl applyRequest (applyRequest s0 r)).trades) = ext := by
        rw [hext, List.drop_left]
      rw [List.foldl_cons, ihs, hdrop1, hcash1, hdrop0]
      rcases hty with hB | hS
      · have hrB : row.txType = ("BUY") := by rw [htyrow]; exact hB
        have hne1 : ¬(("BUY":String) = "SELL") := by with_unfolding_all decide
        simp only [sumAmountsOfType, hrB, eq_self_iff_true, if_true, if_neg hne1]
        ring
      · have hrS : row.txType = ("SELL") := by rw [htyrow]; exact hS
        have hne2 : ¬(("SELL":String) = "BUY") := by with_unfolding_all decide
        simp only [sumAmountsOfType, hrS, eq_self_iff_true, if_true, if_neg hne2]
        ring

def sCash1000 : DBState :=
  ⟨[], fun t => if t = ("CASH") then some ⟨1000, 1, 1000, ("t0")⟩ else none⟩

def demoBuySellReqs : List TxRequest :=
  [⟨("BUY"), ("AAPL"), 10, 10, ("t1"), some ("SEK"), none⟩,
   ⟨("SELL"), ("AAPL"), 5, 20, ("t2"), some ("SEK"), none⟩]

/-- Witness for C5: starting from 1000 cash, a BUY of amount 100 and a SELL of
amount 100 both commit, and the conservation equation holds for the run. -/
theorem c5_cash_conservation_witness :
    (allOk sCash1000 demoBuySellReqs = true ∧
      ∀ r ∈ demoBuySellReqs,
        (strUpper r.txType = "BUY" ∨ strUpper r.txType = "SELL") ∧ r.ticker ≠ "CASH") ∧
    cashUnits (demoBuySellReqs.foldl applyRequest sCash1000) =
      cashUnits sCash1000
        - sumAmountsOfType ("BUY")
            (List.drop sCash1000.trades.length
              (demoBuySellReqs.foldl applyRequest sCash1000).trades)
        + sumAmountsOfType ("SELL")
            (List.drop sCash1000.trades.length
              (demoBuySellReqs.foldl applyRequest sCash1000).trades) :=
  ⟨⟨by with_unfolding_all decide, by with_unfolding_all decide⟩,
   c5_cash_conservation demoBuySellReqs sCash1000 (by with_unfolding_all decide)
     (by with_unfolding_all decide)⟩

/-- C8: from any store state, a SELL of a positive quantity of a non-CASH
ticker (with the default SEK currency and no storage fault) is never stopped
by the liquidity guard: it ends in the committed outcome, lowers that
ticker's net units by the quantity (going below zero when fewer units are
held), and raises the CASH net units by the rounded amount. -/
theorem c8_sell_never_denied (s : DBState) (tk : String) (sh pr : ℚ) (dt : String)
    (htk : tk ≠ "CASH") (hsh : 0 < sh) :
    (recordTransaction s ("SELL") tk sh pr dt (some ("SEK")) none).1 = TxResult.ok ∧
    netUnitsOf (recordTransaction s ("SELL") tk sh pr dt (some ("SEK")) none).2 tk
      = netUnitsOf s tk - sh ∧
    cashUnits (recordTransaction s ("SELL") tk sh pr dt (some ("SEK")) none).2
      = cashUnits s + round4 (sh * pr) := by
  have hup : strUpper ("SELL") = ("SELL") := by with_unfolding_all rfl
  have hne : ("SELL" : String) ≠ "" := by with_unfolding_all decide
  have h2 : ¬(tk = "CASH" ∧
      ¬(strUpper ("SELL") = "DEPOSIT" ∨ strUpper ("SELL") = "WITHDRAW")) := by
    rintro ⟨hc, -⟩
    exact htk hc
  rw [recordTransaction_sek s ("SELL") tk sh pr dt none hne h2, hup, if_neg htk]
  have hguard : ¬((("SELL" : String) = "BUY" ∨ ("SELL" : String) = "WITHDRAW") ∧
      cashUnits s < round4 (sh * pr)) := by
    rintro ⟨hor, -⟩
    rcases hor with h | h <;> exact absurd h (by with_unfolding_all decide)
  have hvt : ("SELL" : String) = "BUY" ∨ ("SELL" : String) = "SELL" ∨
      ("SELL" : String) = "DEPOSIT" ∨ ("SELL" : String) = "WITHDRAW" :=
    Or.inr (Or.inl rfl)
  rw [recordCore_ok_of_guard s ("SELL") tk sh pr dt (some ("SEK")) hvt hguard]
  refine ⟨rfl, ?_, ?_⟩
  · show posUnits (applyLoggedRow s.positions _) tk = netUnitsOf s tk - sh
    have := posUnits_applyLoggedRow_ticker s.positions
      ⟨dt, ("SELL"), tk, sh, pr, some ("SEK"), round4 (sh * pr)⟩ htk
    rw [this]
    rw [if_neg (by with_unfolding_all decide :
      ¬(("SELL" : String) = "BUY" ∨ ("SELL" : String) = "DEPOSIT"))]
    show netUnitsOf s tk + -sh = netUnitsOf s tk - sh
    ring
  · show posUnits (applyLoggedRow s.positions _) ("CASH") = cashUnits s + round4 (sh * pr)
    have := posUnits_applyLoggedRow_cash s.positions
      ⟨dt, ("SELL"), tk, sh, pr, some ("SEK"), round4 (sh * pr)⟩ htk
    rw [this]
    rw [if_neg (by with_unfolding_all decide : ¬(("SELL" : String) = "BUY"))]
    rw [if_pos (rfl : ("SELL" : String) = "SELL")]
    rfl

/-- Witness for C8: selling 2 units of AAPL at price 5 from the store holding
only 100 cash units (and no AAPL at all) commits, puts AAPL at -2 units and
CASH at 110. -/
theorem c8_sell_never_denied_witness :
    (("AAPL" : String) ≠ "CASH" ∧ (0:ℚ) < 2) ∧
    ((recordTransaction sCash100 ("SELL") ("AAPL") 2 5 ("t1") (some ("SEK")) none).1
        = TxResult.ok ∧
      netUnitsOf (recordTransaction sCash100 ("SELL") ("AAPL") 2 5 ("t1")
          (some ("SEK")) none).2 ("AAPL") = netUnitsOf sCash100 ("AAPL") - 2 ∧
      cashUnits (recordTransaction sCash100 ("SELL") ("AAPL") 2 5 ("t1")
          (some ("SEK")) none).2 = cashUnits sCash100 + round4 (2 * 5)) :=
  ⟨⟨by with_unfolding_all decide, by with_unfolding_all decide⟩,
   c8_sell_never_denied sCash100 ("AAPL") 2 5 ("t1")
     (by with_unfolding_all decide) (by with_unfolding_all decide)⟩

theorem recordCore_not_raised (s : DBState) (ty tk : String) (sh pr : ℚ) (dt : String)
    (cur : Option String) (fault : Option ℕ) (m : String) :
    (recordCore s ty tk sh pr dt cur fault).1 ≠ TxResult.raised m := by
  rcases recordCore_cases s ty tk sh pr dt cur fault with h | h | h <;> rw [h] <;> simp

theorem recordTransaction_none_reduce (s : DBState) (ty tk : String) (sh pr : ℚ)
    (dt : String) (fault : Option ℕ) (h1 : ty ≠ "")
    (h2 : ¬(tk = "CASH" ∧ ¬(strUpper ty = "DEPOSIT" ∨ strUpper ty = "WITHDRAW"))) :
    recordTransaction s ty tk sh pr dt none fault =
      recordCore s (strUpper ty) tk sh (if tk = "CASH" then 1 else pr) dt none fault := by
  simp only [recordTransaction, if_neg h1, if_neg h2]

/-- C9: with the currency argument explicitly None, the currency validation
and conversion block is skipped entirely: the call can only raise the two
type-validation errors (never the unsupported-currency one, whatever the
price), and a committed call logs the price unconverted (the CASH forcing to
1 aside) with the currency field stored as None rather than SEK. -/
theorem c9_currency_none (s : DBState) (ty tk : String) (sh pr : ℚ) (dt : String)
    (fault : Option ℕ) :
    (∀ m : String, (recordTransaction s ty tk sh pr dt none fault).1 = TxResult.raised m →
      m = msgTypeRequired ∨ m = msgCashType) ∧
    ((recordTransaction s ty tk sh pr dt none fault).1 = TxResult.ok →
      (recordTransaction s ty tk sh pr dt none fault).2.trades =
        s.trades ++ [⟨dt, strUpper ty, tk, sh, (if tk = "CASH" then 1 else pr), none,
                      round4 (sh * (if tk = "CASH" then 1 else pr))⟩]) := by
  by_cases h1 : ty = ""
  · constructor
    · intro m hm
      simp only [recordTransaction, if_pos h1] at hm
      injection hm with hm
      exact Or.inl hm.symm
    · intro hok
      simp only [recordTransaction, if_pos h1] at hok
      exact absurd hok (by simp)
  · by_cases h2 : tk = "CASH" ∧ ¬(strUpper ty = "DEPOSIT" ∨ strUpper ty = "WITHDRAW")
    · constructor
      · intro m hm
        simp only [recordTransaction, if_neg h1, if_pos h2] at hm
        injection hm with hm
        exact Or.inr hm.symm
      · intro hok
        simp only [recordTransaction, if_neg h1, if_pos h2] at hok
        exact absurd hok (by simp)
    · rw [recordTransaction_none_reduce s ty tk sh pr dt fault h1 h2]
      constructor
      · intro m hm
        exact absurd hm (recordCore_not_raised s (strUpper ty) tk sh _ dt none fault m)
      · intro hok
        rcases recordCore_cases s (strUpper ty) tk sh (if tk = "CASH" then 1 else pr) dt
            none fault with h | h | h
        · rw [h] at hok; exact absurd hok (by simp)
        · rw [h] at hok; exact absurd hok (by simp)
        · rw [h]

/-- Witness for C9: a SELL of AAPL with currency None commits from the empty
store; the logged row carries currency None and the unconverted price 5. -/
theorem c9_currency_none_witness :
    ((recordTransaction emptyState ("SELL") ("AAPL") 2 5 ("t3") none none).1
      = TxResult.ok) ∧
    (recordTransaction emptyState ("SELL") ("AAPL") 2 5 ("t3") none none).2.trades =
      emptyState.trades ++
        [⟨("t3"), strUpper ("SELL"), ("AAPL"), 2,
          (if ("AAPL" : String) = "CASH" then 1 else 5), none,
          round4 (2 * (if ("AAPL" : String) = "CASH" then 1 else 5))⟩] :=
  ⟨by with_unfolding_all decide,
   (c9_currency_none emptyState ("SELL") ("AAPL") 2 5 ("t3") none).2
     (by with_unfolding_all decide)⟩

/-!
Embedding of PortfolioService.get_total_valuation (portfolio_service.py).
The price table is reduced to what the method reads: the list of column
names and the latest row as a partial map from column name to value (none
models a column that is absent from the row or holds NaN).  The snapshot
input is the list of rows returned by get_portfolio_snapshot.
-/

/-- A row of the portfolio snapshot as consumed by the valuation service. -/
structure SnapRow where
  ticker : String
  netShares : ℚ
  lastTradePrice : ℚ
deriving DecidableEq

/-- Failures of get_total_valuation: the empty-snapshot rejection and the
ambiguous close-price-column rejection (a ValueError naming the ticker). -/
inductive ValErr where
  | emptySnapshot
  | ambiguous (ticker : String)
deriving DecidableEq

/-- Containment of one character list in another, as the Python in operator
on strings. -/
def charsContain (hay needle : List Char) : Bool :=
  match hay with
  | [] => needle.isEmpty
  | _ :: t => needle.isPrefixOf hay || charsContain t needle

def strContains (hay needle : String) : Bool := charsContain hay.data needle.data

/-- The search token for a ticker: the upper-cased ticker in parentheses. -/
def tokenOf (t : String) : String := "(" ++ strUpper t ++ ")"

/-- Columns whose upper-cased name contains the ticker token. -/
def candidatesFor (cols : List String) (t : String) : List String :=
  cols.filter (fun c => strContains (strUpper c) (tokenOf t))

/-- Candidate columns whose upper-cased name also contains CLOSE. -/
def closeCandidatesFor (cols : List String) (t : String) : List String :=
  (candidatesFor cols t).filter (fun c => strContains (strUpper c) ("CLOSE"))

/-- _find_price_column_for_ticker: no candidate yields none (fallback), more
than one close-type candidate raises, exactly one is used, and with no
close-type candidate the first candidate is used. -/
def findPriceColumn (cols : List String) (t : String) : Except ValErr (Option String) :=
  match candidatesFor cols t with
  | [] => Except.ok none
  | c :: _ =>
    match closeCandidatesFor cols t with
    | [] => Except.ok (some c)
    | [cl] => Except.ok (some cl)
    | _ :: _ :: _ => Except.error (ValErr.ambiguous t)

/-- last_trade_price of the first snapshot row of the given ticker (the
source indexes iloc 0 of the matching rows; the 0 default is never reached
for tickers drawn from the snapshot itself). -/
def lastTradePriceFor (snap : List SnapRow) (t : String) : ℚ :=
  match snap.find? (fun r => r.ticker == t) with
  | some r => r.lastTradePrice
  | none => 0

/-- Price resolution for one ticker: resolved column value at the latest row
when present, otherwise the stale-price fallback to last_trade_price. -/
def resolvePrice (cols : List String) (latestRow : String → Option ℚ)
    (snap : List SnapRow) (t : String) : Except ValErr ℚ :=
  match findPriceColumn cols t with
  | Except.error e => Except.error e
  | Except.ok none => Except.ok (lastTradePriceFor snap t)
  | Except.ok (some col) =>
    match latestRow col with
    | none => Except.ok (lastTradePriceFor snap t)
    | some p => Except.ok p

/-- Sum of net_shares times resolved price over the snapshot rows. -/
def sumHoldings (cols : List String) (latestRow : String → Option ℚ)
    (snap full : List SnapRow) : Except ValErr ℚ :=
  match snap with
  | [] => Except.ok 0
  | r :: rs =>
    match resolvePrice cols latestRow full r.ticker with
    | Except.error e => Except.error e
    | Except.ok p =>
      match sumHoldings cols latestRow rs full with
      | Except.error e => Except.error e
      | Except.ok acc => Except.ok (r.netShares * p + acc)

/-- get_total_valuation: reject an empty snapshot, then total the value of
every snapshot row at its resolved latest price. -/
def getTotalValuation (cols : List String) (latestRow : String → Option ℚ)
    (snap : List SnapRow) : Except ValErr ℚ :=
  if snap.isEmpty then Except.error ValErr.emptySnapshot
  else sumHoldings cols latestRow snap snap

theorem findPriceColumn_ambiguous (cols : List String) (t : String)
    (h : 2 ≤ (closeCandidatesFor cols t).length) :
    findPriceColumn cols t = Except.error (ValErr.ambiguous t) := by
  cases hc : candidatesFor cols t with
  | nil =>
    rw [closeCandidatesFor, hc] at h
    simp at h
  | cons c cs =>
    cases hcl : closeCandidatesFor cols t with
    | nil => rw [hcl] at h; simp at h
    | cons x xs =>
      cases xs with
      | nil => rw [hcl] at h; simp at h
      | cons y ys => simp only [findPriceColumn, hc, hcl]

theorem resolvePrice_ambiguous (cols : List String) (latestRow : String → Option ℚ)
    (snap : List SnapRow) (t : String) (h : 2 ≤ (closeCandidatesFor cols t).length) :
    resolvePrice cols latestRow snap t = Except.error (ValErr.ambiguous t) := by
  unfold resolvePrice
  rw [findPriceColumn_ambiguous cols t h]

theorem findPriceColumn_error_shape (cols : List String) (t : String) (e : ValErr)
    (hf : findPriceColumn cols t = Except.error e) : e = ValErr.ambiguous t := by
  unfold findPriceColumn at hf
  cases hcand : candidatesFor cols t with
  | nil => rw [hcand] at hf; simp at hf
  | cons c cs =>
    rw [hcand] at hf
    cases hcl : closeCandidatesFor cols t with
    | nil => rw [hcl] at hf; simp at hf
    | cons x xs =>
      rw [hcl] at hf
      cases xs with
      | nil => simp at hf
      | cons y ys =>
        simp at hf
        exact hf.symm

theorem resolvePrice_error_shape (cols : List String) (latestRow : String → Option ℚ)
    (snap : List SnapRow) (t : String) (e : ValErr)
    (h : resolvePrice cols latestRow snap t = Except.error e) :
    ∃ t2 : String, e = ValErr.ambiguous t2 := by
  unfold resolvePrice at h
  cases hf : findPriceColumn cols t with
  | error e2 =>
    rw [hf] at h
    simp at h
    exact ⟨t, by rw [← h]; exact findPriceColumn_error_shape cols t e2 hf⟩
  | ok v =>
    rw [hf] at h
    cases v with
    | none => simp at h
    | some col =>
      cases hl : latestRow col <;> simp [hl] at h

theorem sumHoldings_no_ok (cols : List String) (latestRow : String → Option ℚ)
    (snap full : List SnapRow) (r : SnapRow) (hmem : r ∈ snap)
    (hamb : 2 ≤ (closeCandidatesFor cols r.ticker).length) :
    ∀ v : ℚ, sumHoldings cols latestRow snap full ≠ Except.ok v := by
  induction snap with
  | nil => cases hmem
  | cons a as ih =>
    intro v hv
    unfold sumHoldings at hv
    rcases List.mem_cons.mp hmem with rfl | hmem2
    · rw [resolvePrice_ambiguous cols latestRow full r.ticker hamb] at hv
      simp at hv
    · cases hra : resolvePrice cols latestRow full a.ticker with
      | error e => rw [hra] at hv; simp at hv
      | ok p =>
        rw [hra] at hv
        cases hrest : sumHoldings cols latestRow as full with
        | error e => rw [hrest] at hv; simp at hv
        | ok acc => exact ih hmem2 acc hrest

theorem sumHoldings_error_shape (cols : List String) (latestRow : String → Option ℚ)
    (snap full : List SnapRow) (e : ValErr)
    (h : sumHoldings cols latestRow snap full = Except.error e) :
    ∃ t2 : String, e = ValErr.ambiguous t2 := by
  induction snap with
  | nil => unfold sumHoldings at h; simp at h
  | cons a as ih =>
    unfold sumHoldings at h
    cases hra : resolvePrice cols latestRow full a.ticker with
    | error e2 =>
      rw [hra] at h
      simp at h
      rw [h] at hra
      exact resolvePrice_error_shape cols latestRow full a.ticker e hra
    | ok p =>
      rw [hra] at h
      cases hrest : sumHoldings cols latestRow as full with
      | error e2 =>
        rw [hrest] at h
        simp at h
        rw [h] at hrest
        exact ih hrest
      | ok acc => rw [hrest] at h; simp at h

/-- C7: whenever some snapshot ticker has two or more close-type candidate
columns in the price table, get_total_valuation fails with the ambiguous
close-price-column error for one of the tickers instead of picking a column. -/
theorem c7_ambiguous_close_columns (cols : List String) (latestRow : String → Option ℚ)
    (snap : List SnapRow) (r : SnapRow) (hmem : r ∈ snap)
    (hamb : 2 ≤ (closeCandidatesFor cols r.ticker).length) :
    ∃ t2 : String,
      getTotalValuation cols latestRow snap = Except.error (ValErr.ambiguous t2) := by
  unfold getTotalValuation
  rw [if_neg (by simp; exact List.ne_nil_of_mem hmem)]
  cases hs : sumHoldings cols latestRow snap snap with
  | error e =>
    obtain ⟨t2, ht2⟩ := sumHoldings_error_shape cols latestRow snap snap e hs
    exact ⟨t2, by rw [ht2]⟩
  | ok v => exact absurd hs (sumHoldings_no_ok cols latestRow snap snap r hmem hamb v)

def demoCols : List String := [("Close (AAPL)"), ("Adj Close (AAPL)")]

def demoSnap : List SnapRow := [⟨("AAPL"), 1, 10⟩]

/-- Witness for C7: a table with the two close-type columns Close (AAPL) and
Adj Close (AAPL) makes the valuation of a snapshot holding AAPL fail with the
ambiguous error. -/
theorem c7_ambiguous_close_columns_witness :
    ((⟨("AAPL"), 1, 10⟩ : SnapRow) ∈ demoSnap ∧
      2 ≤ (closeCandidatesFor demoCols (("AAPL"))).length) ∧
    ∃ t2 : String,
      getTotalValuation demoCols (fun _ => none) demoSnap
        = Except.error (ValErr.ambiguous t2) :=
  ⟨⟨by with_unfolding_all decide, by with_unfolding_all decide⟩,
   c7_ambiguous_close_columns demoCols (fun _ => none) demoSnap ⟨("AAPL"), 1, 10⟩
     (by with_unfolding_all decide) (by with_unfolding_all decide)⟩

/-!
Embedding of PortfolioService.get_sharpe_ratio.  The float arithmetic of
pandas and numpy is modelled by exact rationals extended with the IEEE
special values: positive and negative infinity and NaN.  A numpy float
division by zero emits a warning and yields an infinity or NaN; it never
raises, and the embedding is accordingly a total function.
-/

/-- A floating-point value: a finite rational or one of the special values. -/
inductive EFloat where
  | fin (q : ℚ)
  | posinf
  | neginf
  | nan
deriving DecidableEq

def EFloat.add : EFloat → EFloat → EFloat
  | fin a, fin b => fin (a + b)
  | nan, _ => nan
  | _, nan => nan
  | posinf, neginf => nan
  | neginf, posinf => nan
  | posinf, _ => posinf
  | _, posinf => posinf
  | neginf, _ => neginf
  | _, neginf => neginf

def EFloat.sub : EFloat → EFloat → EFloat
  | fin a, fin b => fin (a - b)
  | nan, _ => nan
  | _, nan => nan
  | posinf, posinf => nan
  | neginf, neginf => nan
  | posinf, _ => posinf
  | neginf, _ => neginf
  | fin _, posinf => neginf
  | fin _, neginf => posinf

def EFloat.mul : EFloat → EFloat → EFloat
  | fin a, fin b => fin (a * b)
  | nan, _ => nan
  | _, nan => nan
  | posinf, posinf => posinf
  | posinf, neginf => neginf
  | neginf, posinf => neginf
  | neginf, neginf => posinf
  | posinf, fin b => if b = 0 then nan else if 0 < b then posinf else neginf
  | fin a, posinf => if a = 0 then nan else if 0 < a then posinf else neginf
  | neginf, fin b => if b = 0 then nan else if 0 < b then neginf else posinf
  | fin a, neginf => if a = 0 then nan else if 0 < a then neginf else posinf

/-- IEEE-style division: a nonzero finite value over zero gives a signed
infinity, zero over zero gives NaN. -/
def EFloat.div : EFloat → EFloat → EFloat
  | fin a, fin b =>
    if b = 0 then (if a = 0 then nan else if 0 < a then posinf else neginf)
    else fin (a / b)
  | nan, _ => nan
  | _, nan => nan
  | posinf, posinf => nan
  | posinf, neginf => nan
  | neginf, posinf => nan
  | neginf, neginf => nan
  | posinf, fin b => if 0 ≤ b then posinf else neginf
  | neginf, fin b => if 0 ≤ b then neginf else posinf
  | fin _, posinf => fin 0
  | fin _, neginf => fin 0

/-- Rational stand-in for the floating square root: exact on perfect squares,
in particular at 0, the only point the theorems below evaluate it at. -/
def ratSqrt (q : ℚ) : ℚ := ((Int.sqrt q.num : ℤ) : ℚ) / ((Nat.sqrt q.den : ℕ) : ℚ)

def EFloat.sqrtE : EFloat → EFloat
  | fin q => if q < 0 then nan else fin (ratSqrt q)
  | posinf => posinf
  | neginf => nan
  | nan => nan

/-- pct_change of a series: the first entry is undefined (NaN), each later
entry is the difference over the previous value. -/
def pctChange (l : List ℚ) : List EFloat :=
  match l with
  | [] => []
  | _ :: _ =>
    EFloat.nan ::
      List.zipWith (fun prev cur => EFloat.div (EFloat.fin (cur - prev)) (EFloat.fin prev))
        l l.tail

/-- dropna of a series. -/
def dropna (l : List EFloat) : List EFloat := l.filter (fun x => !(x == EFloat.nan))

def sumE : List EFloat → EFloat
  | [] => EFloat.fin 0
  | x :: xs => EFloat.add x (sumE xs)

/-- Series mean: the sum over the count; the empty series gives 0 over 0,
hence NaN, as pandas returns. -/
def seriesMean (l : List EFloat) : EFloat :=
  EFloat.div (sumE l) (EFloat.fin (l.length : ℚ))

/-- Series standard deviation with one delta degree of freedom, as the pandas
default: NaN on fewer than two values. -/
def seriesStd (l : List EFloat) : EFloat :=
  if l.length ≤ 1 then EFloat.nan
  else
    EFloat.sqrtE
      (EFloat.div
        (sumE (l.map (fun x =>
          EFloat.mul (EFloat.sub x (seriesMean l)) (EFloat.sub x (seriesMean l)))))
        (EFloat.fin ((l.length - 1 : ℕ) : ℚ)))

def isNonFinite : EFloat → Bool
  | EFloat.fin _ => false
  | _ => true

/-- get_sharpe_ratio on a fully populated price column: period returns via
pct_change and dropna, annualization by 252 and by the square root of 252,
then the ratio of excess annualized return over annualized deviation.  The
final .mean() of the source acts on this scalar and returns it unchanged. -/
def sharpeOfColumn (column : List ℚ) (riskFreeRate : ℚ) : EFloat :=
  let dailyReturns := dropna (pctChange column)
  let avgDailyReturn := seriesMean dailyReturns
  let stdDailyReturn := seriesStd dailyReturns
  let annualizedReturn := EFloat.mul avgDailyReturn (EFloat.fin 252)
  let annualizedStd := EFloat.mul stdDailyReturn (EFloat.sqrtE (EFloat.fin 252))
  EFloat.div (EFloat.sub annualizedReturn (EFloat.fin riskFreeRate)) annualizedStd

theorem zipWith_pct_replicate (f : ℚ → ℚ → EFloat) (c : ℚ) (m : ℕ) :
    List.zipWith f (c :: List.replicate m c) (List.replicate m c)
      = List.replicate m (f c c) := by
  induction m with
  | zero => rfl
  | succ k ih =>
    rw [List.replicate_succ]
    show f c c :: List.zipWith f (c :: List.replicate k c) (List.replicate k c)
      = List.replicate (k+1) (f c c)
    rw [ih, List.replicate_succ]

theorem pctChange_replicate (m : ℕ) (c : ℚ) :
    pctChange (List.replicate (m+1) c) =
      EFloat.nan ::
        List.replicate m (EFloat.div (EFloat.fin (c - c)) (EFloat.fin c)) := by
  rw [List.replicate_succ]
  show EFloat.nan ::
      List.zipWith _ (c :: List.replicate m c) ((c :: List.replicate m c)).tail = _
  rw [List.tail_cons]
  rw [zipWith_pct_replicate]

theorem sumE_replicate_zero (k : ℕ) :
    sumE (List.replicate k (EFloat.fin 0)) = EFloat.fin 0 := by
  induction k with
  | zero => rfl
  | succ j ih =>
    rw [List.replicate_succ]
    show EFloat.add (EFloat.fin 0) (sumE (List.replicate j (EFloat.fin 0))) = _
    rw [ih]
    show EFloat.fin (0 + 0) = EFloat.fin 0
    norm_num

theorem seriesMean_replicate_zero (j : ℕ) :
    seriesMean (List.replicate (j+1) (EFloat.fin 0)) = EFloat.fin 0 := by
  unfold seriesMean
  rw [sumE_replicate_zero, List.length_replicate]
  have hne : ((j : ℚ) + 1) ≠ 0 := by positivity
  simp [EFloat.div, hne]

theorem ratSqrt_zero : ratSqrt 0 = 0 := by
  with_unfolding_all rfl

theorem seriesStd_replicate_zero (k : ℕ) :
    seriesStd (List.replicate (k+2) (EFloat.fin 0)) = EFloat.fin 0 := by
  unfold seriesStd
  rw [List.length_replicate]
  rw [if_neg (by omega)]
  rw [List.map_replicate]
  rw [seriesMean_replicate_zero (k+1)]
  have hv : EFloat.mul (EFloat.sub (EFloat.fin 0) (EFloat.fin 0))
      (EFloat.sub (EFloat.fin 0) (EFloat.fin 0)) = EFloat.fin 0 := by
    simp [EFloat.sub, EFloat.mul]
  rw [hv, sumE_replicate_zero]
  have h21 : (k + 2 - 1 : ℕ) = k + 1 := by omega
  rw [h21]
  have hne : ((k : ℚ) + 1) ≠ 0 := by positivity
  simp [EFloat.div, hne, EFloat.sqrtE, ratSqrt_zero]

/-- C10: on a price column of at least two rows holding one constant value,
get_sharpe_ratio completes without raising (the embedding is total on this
path, as the numpy float operations only warn) and the value it returns is
non-finite: NaN or a signed infinity arising from the zero annualized
deviation. -/
theorem c10_sharpe_constant_column (n : ℕ) (c : ℚ) (hn : 2 ≤ n) :
    isNonFinite (sharpeOfColumn (List.replicate n c) (1/50)) = true := by
  obtain ⟨m, rfl⟩ : ∃ m, n = m + 2 := ⟨n - 2, by omega⟩
  by_cases hc : c = 0
  · subst hc
    have hdiv : EFloat.div (EFloat.fin ((0:ℚ) - 0)) (EFloat.fin 0) = EFloat.nan := by
      simp [EFloat.div]
    have hdrop : dropna (EFloat.nan :: List.replicate (m+1) EFloat.nan) = [] := by
      simp [dropna, List.filter_replicate]
    simp only [sharpeOfColumn]
    rw [pctChange_replicate (m+1) 0, hdiv, hdrop]
    with_unfolding_all decide
  · have hdiv : EFloat.div (EFloat.fin (c - c)) (EFloat.fin c) = EFloat.fin 0 := by
      simp [EFloat.div, hc]
    have hdrop : dropna (EFloat.nan :: List.replicate (m+1) (EFloat.fin 0)) =
        List.replicate (m+1) (EFloat.fin 0) := by
      simp [dropna, List.filter_replicate]
    simp only [sharpeOfColumn]
    rw [pctChange_replicate (m+1) c, hdiv, hdrop]
    cases m with
    | zero => with_unfolding_all decide
    | succ k =>
      rw [seriesMean_replicate_zero (k+1), seriesStd_replicate_zero k]
      with_unfolding_all decide

/-- Witness for C10: a four-row column constant at 5 yields a non-finite
Sharpe value. -/
theorem c10_sharpe_constant_column_witness :
    2 ≤ 4 ∧ isNonFinite (sharpeOfColumn (List.replicate 4 (5:ℚ)) (1/50)) = true :=
  ⟨by decide, c10_sharpe_constant_column 4 5 (by decide)⟩
